import Mathlib

set_option allowUnsafeReducibility true

/- The library marks the rational operations `@[irreducible]` for
performance; the concrete evaluations below need them to unfold (this is a
transparency setting only, with no logical content). -/
attribute [semireducible] Rat.add Rat.mul Rat.inv Rat.sub Rat.ofScientific

/-!
Shallow embedding of the Booze data pipeline (a TypeScript quarterly
alcohol-availability dashboard) and proofs about its core transformation
algorithms: record normalization (src/lib/csv.ts), moving-average smoothing
and crossover detection (src/views/percapita.ts), the spirits unit check
(src/views/spiritscheck.ts), and the seasonality / long-run / beer-strength
aggregations (src/views/seasonality.ts).

Modelling conventions:
* JS numbers are modelled as exact rationals (ℚ); the claims under study
  involve only small exact arithmetic where IEEE doubles and rationals agree.
* `number | null` is `Option ℚ`; `null`/absent is `none`.
* A JS `Date` is modelled by its position on the time axis as a rational
  month coordinate: `new Date(y, m, 1)` becomes `12 * y + m` (after the JS
  two-digit-year adjustment), `getTime` is the identity, and fractional
  coordinates stand for interpolated instants.  All uses in the source are
  order comparisons, affine interpolation, and year/month extraction, which
  this coordinate supports exactly.
* JS `Map`s and plain objects used as dictionaries are insertion-ordered
  association lists (`List (κ × ν)`), with `setEntry`/`getEntry` mirroring
  `Map.set`/`Map.get` (and bracket assignment/lookup on objects).
* `Array.prototype.sort` is a stable insertion sort on the compared key.
-/

namespace Booze

/-! ### Generic helpers: indexed map, association lists, stable sort -/

/-- Embedding of `values.map((x, index) => f(index, x))`, carrying the
starting index explicitly so that proofs can proceed by structural
induction. -/
def mapWithIndex (f : ℕ → α → β) : ℕ → List α → List β
  | _, [] => []
  | i, a :: rest => f i a :: mapWithIndex f (i + 1) rest

theorem length_mapWithIndex (f : ℕ → α → β) (k : ℕ) (l : List α) :
    (mapWithIndex f k l).length = l.length := by
  induction l generalizing k with
  | nil => rfl
  | cons a rest ih => simp [mapWithIndex, ih]

theorem get?_mapWithIndex (f : ℕ → α → β) (k : ℕ) (l : List α) (i : ℕ) :
    (mapWithIndex f k l).get? i = (l.get? i).map (f (k + i)) := by
  induction l generalizing k i with
  | nil => simp [mapWithIndex]
  | cons a rest ih =>
    cases i with
    | zero => simp [mapWithIndex]
    | succ n =>
      have hk : k + 1 + n = k + (n + 1) := by omega
      simp only [mapWithIndex, List.get?_cons_succ, ih (k + 1) n, hk]

/-- `map.set k v` / `obj[k] = v` on an insertion-ordered association list:
replace the binding in place if the key is present, append it otherwise. -/
def setEntry [DecidableEq κ] : List (κ × ν) → κ → ν → List (κ × ν)
  | [], k, v => [(k, v)]
  | (k', v') :: rest, k, v =>
    if k' = k then (k, v) :: rest else (k', v') :: setEntry rest k v

/-- `map.get k` / `obj[k]` on an association list (first binding wins). -/
def getEntry [DecidableEq κ] : List (κ × ν) → κ → Option ν
  | [], _ => none
  | (k', v) :: rest, k => if k' = k then some v else getEntry rest k

theorem getEntry_setEntry_self [DecidableEq κ] (m : List (κ × ν)) (k : κ) (v : ν) :
    getEntry (setEntry m k v) k = some v := by
  induction m with
  | nil => simp [setEntry, getEntry]
  | cons kv rest ih =>
    obtain ⟨k', v'⟩ := kv
    by_cases h : k' = k <;> simp [setEntry, getEntry, h, ih]

theorem getEntry_setEntry_ne [DecidableEq κ] (m : List (κ × ν)) (k k' : κ) (v : ν)
    (h : k' ≠ k) : getEntry (setEntry m k v) k' = getEntry m k' := by
  induction m with
  | nil => simp [setEntry, getEntry, Ne.symm h]
  | cons kv rest ih =>
    obtain ⟨k₀, v₀⟩ := kv
    by_cases h₀ : k₀ = k
    · subst h₀
      simp [setEntry, getEntry, Ne.symm h]
    · by_cases h₁ : k₀ = k'
      · subst h₁
        simp [setEntry, getEntry, h₀]
      · simp [setEntry, getEntry, h₀, h₁, ih]

/-- Insert into an already-sorted list, after any element that does not
compare strictly greater (so repeated insertion is a stable sort). -/
def ordInsert (lt : α → α → Bool) (a : α) : List α → List α
  | [] => [a]
  | b :: rest => if lt a b then a :: b :: rest else b :: ordInsert lt a rest

/-- Stable insertion sort, modelling `Array.prototype.sort` with a
comparator that orders by `lt`. -/
def sortByKey (lt : α → α → Bool) (l : List α) : List α :=
  l.foldl (fun acc a => ordInsert lt a acc) []

theorem mem_ordInsert (lt : α → α → Bool) (a b : α) (l : List α) :
    b ∈ ordInsert lt a l ↔ b = a ∨ b ∈ l := by
  induction l with
  | nil => simp [ordInsert]
  | cons c rest ih =>
    by_cases h : lt a c
    · simp [ordInsert, h]
    · simp [ordInsert, h, ih]
      tauto

theorem mem_sortByKey (lt : α → α → Bool) (a : α) (l : List α) :
    a ∈ sortByKey lt l ↔ a ∈ l := by
  suffices h : ∀ acc : List α,
      a ∈ l.foldl (fun acc x => ordInsert lt x acc) acc ↔ a ∈ acc ∨ a ∈ l by
    simpa [sortByKey] using h []
  induction l with
  | nil => simp
  | cons b rest ih =>
    intro acc
    simp only [List.foldl_cons, ih, mem_ordInsert, List.mem_cons]
    tauto

/-! ### Slugs (src/lib/csv.ts `slugify`, views' `keyForLabel`) -/

/-- Per-character model of `String.prototype.toLowerCase`: map the ASCII
uppercase range onto lowercase.  The source only ever keeps ASCII
alphanumerics afterwards, so non-ASCII case mapping is immaterial here. -/
def toLowerChar (c : Char) : Char :=
  if 'A' ≤ c ∧ c ≤ 'Z' then Char.ofNat (c.toNat + 32) else c

/-- The character class `[a-z0-9]` (complement of the slug regexes'
`[^a-z0-9]`). -/
def isAlnumCh (c : Char) : Bool :=
  decide (('a' ≤ c ∧ c ≤ 'z') ∨ ('0' ≤ c ∧ c ≤ '9'))

/-- `replace(/[^a-z0-9]+/g, '-')`: each maximal run of characters outside
`[a-z0-9]` becomes one hyphen. -/
def collapseRuns : List Char → List Char
  | [] => []
  | [c] => if isAlnumCh c then [c] else ['-']
  | c :: d :: rest =>
    if isAlnumCh c then c :: collapseRuns (d :: rest)
    else if isAlnumCh d then '-' :: collapseRuns (d :: rest)
    else collapseRuns (d :: rest)

/-- The `^-+|-+$` global replacement in `slugify`: strip the leading and the
trailing hyphen run. -/
def stripDashes (l : List Char) : List Char :=
  (l.dropWhile (fun c => c == '-')).rdropWhile (fun c => c == '-')

/-- The final `-{2,}` global replacement in `slugify`: collapse every run of
two or more hyphens to a single hyphen. -/
def collapseDashes : List Char → List Char
  | [] => []
  | [c] => [c]
  | c :: d :: rest =>
    if c == '-' && d == '-' then collapseDashes (d :: rest)
    else c :: collapseDashes (d :: rest)

/-- `slugify` from src/lib/csv.ts: lowercase, collapse non-alphanumeric runs
to hyphens, strip edge hyphens, collapse repeated hyphens. -/
def slugify (s : String) : String :=
  ⟨collapseDashes (stripDashes (collapseRuns (s.data.map toLowerChar)))⟩

/-- The slug as the spec words it, for comparison with `slugify`:
"lowercased, non-alphanumeric runs collapsed to a single hyphen, no
leading/trailing hyphens" — without the final repeated-hyphen collapse the
implementation also performs. -/
def slugSpec (s : String) : String :=
  ⟨stripDashes (collapseRuns (s.data.map toLowerChar))⟩

/-- `keyForLabel` as defined identically in all four view modules:
`label.toLowerCase().replace(/[^a-z0-9]+/g, '-')`. -/
def keyForLabel (s : String) : String :=
  ⟨collapseRuns (s.data.map toLowerChar)⟩

/-! ### Numeric coercion (src/lib/csv.ts) -/

/-- Parse a non-empty all-digit character list as a natural number. -/
def parseNatDigits (l : List Char) : Option ℕ :=
  if l = [] then none
  else if l.all (fun c => decide ('0' ≤ c ∧ c ≤ '9')) then
    some (l.foldl (fun acc c => 10 * acc + (c.toNat - '0'.toNat)) 0)
  else none

/-- Parse an unsigned decimal literal (`123`, `123.45`, `.45`, `12.`). -/
def parseUnsignedDecimal (l : List Char) : Option ℚ :=
  let intPart := l.takeWhile (fun c => c ≠ '.')
  match l.dropWhile (fun c => c ≠ '.') with
  | [] => (parseNatDigits intPart).map (fun n => (n : ℚ))
  | _ :: frac =>
    if frac = [] then (parseNatDigits intPart).map (fun n => (n : ℚ))
    else
      match parseNatDigits frac with
      | none => none
      | some f =>
        if intPart = [] then some ((f : ℚ) / 10 ^ frac.length)
        else (parseNatDigits intPart).map (fun n => (n : ℚ) + (f : ℚ) / 10 ^ frac.length)

/-- Model of `String.prototype.trim`: drop leading and trailing whitespace
(defined on the character list so that it evaluates structurally). -/
def jsTrim (s : String) : String :=
  ⟨(s.data.dropWhile Char.isWhitespace).rdropWhile Char.isWhitespace⟩

/-- Model of taking the first `n` characters of a string (`slice(0, n)`). -/
def jsTake (s : String) (n : ℕ) : String :=
  ⟨s.data.take n⟩

/-- Model of the JS `Number(...)` builtin restricted to the decimal literals
(optionally signed, with an optional fractional part) that occur in this
dataset; every other input is "not a finite number" (`none`), matching how
the loader treats `NaN`. -/
def jsNumber (s : String) : Option ℚ :=
  match s.data with
  | '-' :: rest => (parseUnsignedDecimal rest).map (fun q => -q)
  | '+' :: rest => parseUnsignedDecimal rest
  | l => parseUnsignedDecimal l

/-- `coerceNumber` from src/lib/csv.ts: trim, treat empty and the `".."`
sentinel as absent, otherwise parse (non-finite parses are absent). -/
def coerceNumber : Option String → Option ℚ
  | none => none
  | some v =>
    let trimmed := jsTrim v
    if trimmed = "" ∨ trimmed = ".." then none
    else jsNumber trimmed

/-! ### Record normalization (src/lib/csv.ts `loadData` row mapping) -/

/-- A raw CSV row restricted to the columns the loader reads.  `Unnamed_1`
stands for the column literally named `"Unnamed: 1"` and `blankCol` for the
column named `""`. -/
structure RawRecord where
  Period : Option String := none
  Group : Option String := none
  Series_title_1 : Option String := none
  Data_value : Option String := none
  UNITS : Option String := none
  Unnamed_1 : Option String := none
  blankCol : Option String := none
  Month : Option String := none
  Month_code : Option String := none
deriving DecidableEq, Repr

/-- `deriveMonth`: first month-alias column that is present, trimmed to its
first three characters, looked up in `{Mar: 3, Jun: 6, Sep: 9, Dec: 12}`
with default 12. -/
def deriveMonth (row : RawRecord) : ℤ :=
  let monthToken :=
    ((((row.Unnamed_1).orElse (fun _ => row.blankCol)).orElse
      (fun _ => row.Month)).orElse (fun _ => row.Month_code)).getD ""
  let token := if monthToken = "" then "" else jsTake (jsTrim monthToken) 3
  if token = "Mar" then 3
  else if token = "Jun" then 6
  else if token = "Sep" then 9
  else if token = "Dec" then 12
  else 12

/-- `deriveYear`: parse the period as a number and floor it; otherwise parse
the prefix before the first `.` (already whole, so flooring it is the
identity); otherwise 0. -/
def deriveYear (period : String) : ℤ :=
  match jsNumber period with
  | some q => ⌊q⌋
  | none =>
    match jsNumber (String.mk (period.data.takeWhile (fun c => c ≠ '.'))) with
    | some q => ⌊q⌋
    | none => 0

/-- `ensureDate(year, month) = new Date(year, Math.max(0, month - 1), 1)`
as a month coordinate.  JS `Date` maps constructor years 0–99 to 1900–1999;
the coordinate is `12 * adjustedYear + monthIndex`. -/
def ensureDate (year month : ℤ) : ℚ :=
  let y := if 0 ≤ year ∧ year ≤ 99 then year + 1900 else year
  ((12 * y + max 0 (month - 1) : ℤ) : ℚ)

/-- `getFullYear()` of a record date in the month-coordinate model. -/
def dateYear (t : ℚ) : ℤ := Int.fdiv ⌊t⌋ 12

/-- `getMonth() + 1` of a record date in the month-coordinate model. -/
def dateMonth (t : ℚ) : ℤ := Int.emod ⌊t⌋ 12 + 1

/-- The normalized record (`DataRecord` in src/lib/csv.ts). -/
structure DataRecord where
  period : String
  date : ℚ
  year : ℤ
  month : ℤ
  value : Option ℚ
  units : String
  groupKey : String
  groupLabel : String
  seriesKey : String
  seriesLabel : String
deriving DecidableEq, Repr

/-- The per-row mapping inside `loadData`: defaults for missing columns,
slug derivation (with the `seriesLabel || group-period` fallback for empty
series labels), numeric coercion, and calendar derivation. -/
def normalizeRow (row : RawRecord) : DataRecord :=
  let period := row.Period.getD ""
  let groupLabel := row.Group.getD "Unknown group"
  let seriesLabel := row.Series_title_1.getD "Unknown series"
  let year := deriveYear period
  let month := deriveMonth row
  { period := period
    date := ensureDate year month
    year := year
    month := month
    value := coerceNumber row.Data_value
    units := row.UNITS.getD ""
    groupKey := slugify groupLabel
    seriesKey := slugify (if seriesLabel = "" then groupLabel ++ "-" ++ period else seriesLabel)
    groupLabel := groupLabel
    seriesLabel := seriesLabel }

/-- The pure tail of `loadData`: normalize every row, drop records whose
trimmed series label is empty, sort ascending by date. -/
def loadRecords (rows : List RawRecord) : List DataRecord :=
  sortByKey (fun a b => decide (a.date < b.date))
    ((rows.map normalizeRow).filter (fun r => decide (0 < (jsTrim r.seriesLabel).length)))

/-! ### Export rounding -/

/-- `Number(x.toFixed(digits))` under exact arithmetic: round half away
from zero toward +∞ at the given number of decimal digits (the ECMAScript
`toFixed` tie rule picks the larger candidate). -/
def roundTo (digits : ℕ) (x : ℚ) : ℚ :=
  ((⌊x * 10 ^ digits + 1 / 2⌋ : ℤ) : ℚ) / 10 ^ digits

/-! ### Per-capita view (src/views/percapita.ts) -/

/-- One sample of a named series: a date and an optional value. -/
structure SeriesPoint where
  date : ℚ
  value : Option ℚ
deriving DecidableEq, Repr

/-- A named series (`SeriesData`). -/
structure SeriesData where
  key : String
  label : String
  values : List SeriesPoint
deriving DecidableEq, Repr

/-- The values of the trailing window ending at `index`:
`values.slice(Math.max(0, index - windowSize + 1), index + 1)` filtered to
the present values.  Truncated ℕ subtraction is exactly the `Math.max(0, ·)`
clamp, and the window holds `min windowSize (index + 1)` points. -/
def smoothWindow (values : List SeriesPoint) (windowSize index : ℕ) : List ℚ :=
  ((values.take (index + 1)).drop (index + 1 - windowSize)).filterMap SeriesPoint.value

/-- The per-index body of `smoothValues`: keep the point when its trailing
window has no present values, otherwise replace the value by the window
mean. -/
def smoothStep (values : List SeriesPoint) (windowSize index : ℕ) (point : SeriesPoint) :
    SeriesPoint :=
  let window := smoothWindow values windowSize index
  if window.isEmpty then point
  else { date := point.date, value := some (window.sum / (window.length : ℚ)) }

/-- `smoothValues`: identity for window sizes ≤ 1; otherwise each point
becomes the mean of the present values in its trailing window, and keeps its
original (absent) value when that window has no present values. -/
def smoothValues (values : List SeriesPoint) (windowSize : ℕ) : List SeriesPoint :=
  if windowSize ≤ 1 then values
  else mapWithIndex (smoothStep values windowSize) 0 values

/-- A detected crossover event (`CrossoverPoint`). -/
structure CrossoverPoint where
  date : ℚ
  labelA : String
  labelB : String
  value : ℚ
deriving DecidableEq, Repr

/-- The body of the inner `findCrossovers` loop for one consecutive sample
pair on series A and B: skip if any of the four values is absent; an exact
coincidence at the earlier sample records that sample; a strict sign change
records the linearly interpolated crossing. -/
def crossStep (labelA labelB : String) (prevA currA prevB currB : SeriesPoint) :
    List CrossoverPoint :=
  match prevA.value, currA.value, prevB.value, currB.value with
  | some pa, some ca, some pb, some cb =>
    let prevDiff := pa - pb
    let currDiff := ca - cb
    if prevDiff = 0 then
      [{ date := prevA.date, labelA := labelA, labelB := labelB, value := pa }]
    else if prevDiff * currDiff < 0 then
      let totalDiff := |prevDiff| + |currDiff|
      let rat : ℚ := |prevDiff| / totalDiff
      [{ date := prevA.date + (currA.date - prevA.date) * rat
         labelA := labelA
         labelB := labelB
         value := pa + (ca - pa) * rat }]
    else []
  | _, _, _, _ => []

/-- The inner index loop of `findCrossovers`, walking the two aligned value
lists in lockstep over consecutive sample pairs. -/
def pairCrossovers (labelA labelB : String) :
    List SeriesPoint → List SeriesPoint → List CrossoverPoint
  | prevA :: currA :: restA, prevB :: currB :: restB =>
    crossStep labelA labelB prevA currA prevB currB ++
      pairCrossovers labelA labelB (currA :: restA) (currB :: restB)
  | _, _ => []

/-- All ordered pairs `(l[i], l[j])` with `i < j`, in the nested-loop order
of the source. -/
def pairsAfter : List α → List (α × α)
  | [] => []
  | a :: rest => rest.map (fun b => (a, b)) ++ pairsAfter rest

/-- `findCrossovers`: check every pair of series independently and collect
all events. -/
def findCrossovers (series : List SeriesData) : List CrossoverPoint :=
  (pairsAfter series).flatMap
    (fun p => pairCrossovers p.1.label p.2.label p.1.values p.2.values)

/-- One flat export row of the per-capita view: calendar fields plus one
rounded cell per series key. -/
structure PercapitaRow where
  year : ℤ
  month : ℤ
  cells : List (String × Option ℚ)
deriving DecidableEq, Repr

/-- The per-capita `exportRows` projector over the cached series: one row per
index of the first series, each series value rounded to 3 digits, absent
values exported as `null`.  (The `?? new Date()` fallback for a missing date
is unreachable for indices below the length and is modelled by 0.) -/
def percapitaExportRows (series : List SeriesData) : List PercapitaRow :=
  match series with
  | [] => []
  | first :: _ =>
    (List.range first.values.length).map (fun index =>
      let d := ((first.values.get? index).map SeriesPoint.date).getD 0
      { year := dateYear d
        month := dateMonth d
        cells := series.map (fun s =>
          (s.key, ((s.values.get? index).bind SeriesPoint.value).map (roundTo 3))) })

/-! ### Spirits unit check (src/views/spiritscheck.ts) -/

/-- The trailing window of `smoothSeries` (present values among
`values.slice(Math.max(0, index - windowSize + 1), index + 1)`). -/
def smoothSeriesWindow (values : List (Option ℚ)) (windowSize index : ℕ) : List ℚ :=
  ((values.take (index + 1)).drop (index + 1 - windowSize)).filterMap id

/-- The per-index body of `smoothSeries`. -/
def smoothSeriesStep (values : List (Option ℚ)) (windowSize index : ℕ) (value : Option ℚ) :
    Option ℚ :=
  let window := smoothSeriesWindow values windowSize index
  if window.isEmpty then value
  else some (window.sum / (window.length : ℚ))

/-- `smoothSeries`: the same trailing-window moving average over a bare list
of optional values. -/
def smoothSeries (values : List (Option ℚ)) (windowSize : ℕ) : List (Option ℚ) :=
  if windowSize ≤ 1 then values
  else mapWithIndex (smoothSeriesStep values windowSize) 0 values

/-- A per-period point of the spirits check (`SpiritsPoint`). -/
structure SpiritsPoint where
  date : ℚ
  period : String
  litres : Option ℚ
  proof : Option ℚ
  ratio : Option ℚ
deriving DecidableEq, Repr

def spiritsGroupLabel : String := "(DISC) Volume & Volume Per Head"

def spiritsSeriesLabel : String := "Spirits"

/-- Store a record's value on the point slot selected by its units label. -/
def applyUnits (point : SpiritsPoint) (r : DataRecord) : SpiritsPoint :=
  if r.units = "Litres" then { point with litres := r.value }
  else if r.units = "ProofL" then { point with proof := r.value }
  else point

/-- One iteration of the `byPeriod` accumulation in `preparePoints`: create
the period's point if missing, then store the record's value by units. -/
def upsertSpirits (m : List SpiritsPoint) (r : DataRecord) : List SpiritsPoint :=
  if m.any (fun p => p.period == r.period) then
    m.map (fun p => if p.period = r.period then applyUnits p r else p)
  else
    m ++ [applyUnits
      { date := r.date, period := r.period, litres := none, proof := none, ratio := none } r]

/-- The ratio pass of `preparePoints`: `litres / proof` when both are present
and the denominator is nonzero, absent otherwise (so the division is always
guarded). -/
def setRatio (point : SpiritsPoint) : SpiritsPoint :=
  match point.litres, point.proof with
  | some l, some p =>
    if p ≠ 0 then { point with ratio := some (l / p) } else { point with ratio := none }
  | _, _ => { point with ratio := none }

/-- `preparePoints`: group the Spirits records of the discontinued
volume group by period, sort by date, then derive the ratio. -/
def preparePoints (records : List DataRecord) : List SpiritsPoint :=
  let relevant := records.filter
    (fun r => r.groupLabel == spiritsGroupLabel && r.seriesLabel == spiritsSeriesLabel)
  let pts := relevant.foldl upsertSpirits []
  (sortByKey (fun a b => decide (a.date < b.date)) pts).map setRatio

/-- One export row of the spirits check.  The source serializes the date as
an ISO string; the row here carries the underlying date coordinate. -/
structure SpiritsRow where
  date : ℚ
  litres : Option ℚ
  proof : Option ℚ
  ratio : Option ℚ
deriving DecidableEq, Repr

/-- The spirits-check `exportRows` projector: litres, proof **and the
ratio** are all rounded to 3 decimal digits. -/
def spiritsExportRows (points : List SpiritsPoint) : List SpiritsRow :=
  points.map (fun point =>
    { date := point.date
      litres := point.litres.map (roundTo 3)
      proof := point.proof.map (roundTo 3)
      ratio := point.ratio.map (roundTo 3) })

/-! ### Seasonality heatmap (src/views/seasonality.ts, first module) -/

/-- A heatmap cell (`HeatmapCell`). -/
structure HeatmapCell where
  year : ℤ
  month : ℤ
  value : Option ℚ
deriving DecidableEq, Repr

/-- One iteration of the `byYear` accumulation in `prepareCells`: skip
absent values, otherwise add the value into the year's month slot. -/
def bumpYearMonth (byYear : List (ℤ × List (ℤ × ℚ))) (r : DataRecord) :
    List (ℤ × List (ℤ × ℚ)) :=
  match r.value with
  | none => byYear
  | some v =>
    let inner := (getEntry byYear r.year).getD []
    setEntry byYear r.year (setEntry inner r.month ((getEntry inner r.month).getD 0 + v))

/-- The `byYear` map of `prepareCells`: per-year, per-month sums of the
present values of the selected group/series. -/
def prepareByYear (records : List DataRecord) (groupLabel seriesLabel : String) :
    List (ℤ × List (ℤ × ℚ)) :=
  (records.filter (fun r => r.groupLabel == groupLabel && r.seriesLabel == seriesLabel)).foldl
    bumpYearMonth []

/-- The year total: the sum of the year's month sums. -/
def yearTotal (inner : List (ℤ × ℚ)) : ℚ :=
  (inner.map Prod.snd).sum

/-- `prepareCells`: one cell per (sorted year) × quarter-month; in normalize
mode the cell is the month's share of the year total, absent when the month
has no sum or the year total is zero. -/
def prepareCells (records : List DataRecord) (groupLabel seriesLabel : String)
    (normalize : Bool) : List HeatmapCell :=
  let byYear := prepareByYear records groupLabel seriesLabel
  let years := sortByKey (fun a b => decide (a < b)) (byYear.map Prod.fst)
  years.flatMap (fun year =>
    let inner := (getEntry byYear year).getD []
    let total := yearTotal inner
    ([3, 6, 9, 12] : List ℤ).map (fun month =>
      let value := getEntry inner month
      if normalize then
        { year := year, month := month
          value := if total = 0 then none else value.map (fun v => v / total) }
      else { year := year, month := month, value := value }))

/-- One export row of the seasonality view. -/
structure SeasonalityRow where
  year : ℤ
  month : ℤ
  value : Option ℚ
deriving DecidableEq, Repr

/-- The seasonality `exportRows` projector: cell values rounded to 4 digits
when normalized (shares), 3 digits otherwise (raw volumes). -/
def seasonalityExportRows (cells : List HeatmapCell) (normalize : Bool) :
    List SeasonalityRow :=
  cells.map (fun cell =>
    { year := cell.year, month := cell.month
      value := cell.value.map (roundTo (if normalize then 4 else 3)) })

/-! ### Long-run view (src/views/seasonality.ts, second module) -/

/-- The long-run view's series labels (`SERIES_LABELS`). -/
def SERIES_LABELS : List String := ["Total beer", "Total wine", "Total spirits"]

/-- A pivoted time point with its total and per-series shares
(`PointShare`). -/
structure PointShare where
  date : ℚ
  total : ℚ
  shares : List (String × ℚ)
deriving DecidableEq, Repr

/-- A pivoted chart series (`ChartSeries`). -/
structure ChartSeries where
  key : String
  label : String
  values : List SeriesPoint
deriving DecidableEq, Repr

/-- The pivot key of `buildSeries`: the template string `year-month`. -/
def pointKey (r : DataRecord) : String :=
  toString r.year ++ "-" ++ toString r.month

/-- One iteration of the `points` accumulation in `buildSeries`: create the
point with zeroed shares if missing, then (for present values) add the value
to the point total and overwrite the series slot with it. -/
def upsertPointShare (labels : List String) (points : List (String × PointShare))
    (r : DataRecord) : List (String × PointShare) :=
  let key := pointKey r
  let points' :=
    if (getEntry points key).isSome then points
    else setEntry points key
      { date := r.date, total := 0
        shares := labels.map (fun name => (keyForLabel name, 0)) }
  match getEntry points' key, r.value with
  | some entry, some v =>
    setEntry points' key
      { entry with
        total := entry.total + v
        shares := setEntry entry.shares (keyForLabel r.seriesLabel) v }
  | _, _ => points'

/-- The `points` map of `buildSeries`, accumulated label by label over the
records of each label. -/
def collectPoints (records : List DataRecord) (labels : List String) :
    List (String × PointShare) :=
  labels.foldl (fun points label =>
    (records.filter (fun r => r.seriesLabel == label)).foldl (upsertPointShare labels) points)
    []

/-- The normalization pass of `buildSeries` over one ordered point:
`point.total || 0` is the identity on rationals; a zero total sets every
`SERIES_LABELS` share to the explicit number 0, otherwise every share is
divided by the total. -/
def normalizePointShares (point : PointShare) : PointShare :=
  if point.total = 0 then
    { point with
      shares := SERIES_LABELS.foldl (fun s label => setEntry s (keyForLabel label) 0)
        point.shares }
  else
    { point with
      shares := SERIES_LABELS.foldl (fun s label =>
        setEntry s (keyForLabel label)
          ((getEntry s (keyForLabel label)).getD 0 / point.total)) point.shares }

/-- The `orderedPoints` of `buildSeries`: the pivot points sorted by date,
normalized. -/
def buildSeriesPoints (records : List DataRecord) (labels : List String) :
    List PointShare :=
  (sortByKey (fun a b => decide (a.date < b.date))
    ((collectPoints records labels).map Prod.snd)).map normalizePointShares

/-- The `series` result of `buildSeries`: per label the point values,
reconstructed as `share * total`, absent where the point total is zero. -/
def buildSeriesList (records : List DataRecord) (labels : List String) :
    List ChartSeries :=
  let orderedPoints := buildSeriesPoints records labels
  labels.map (fun label =>
    { key := keyForLabel label
      label := label
      values := orderedPoints.map (fun point =>
        { date := point.date
          value :=
            if point.total = (0 : ℚ) then none
            else some ((getEntry point.shares (keyForLabel label)).getD 0 * point.total) }) })

/-- `buildSeries` proper: the pivoted series together with the ordered
share points. -/
def buildSeries (records : List DataRecord) (labels : List String) :
    List ChartSeries × List PointShare :=
  (buildSeriesList records labels, buildSeriesPoints records labels)

/-- One export row of the long-run view. -/
structure LongrunRow where
  year : ℤ
  month : ℤ
  total_litres : ℚ
  cells : List (String × ℚ)
deriving DecidableEq, Repr

/-- The long-run `createExportRows` projector: filter the model to the
selected group, rebuild the pivot, then emit the total rounded to 3 digits
and one `key_share` cell rounded to 4 digits per active series.  A missing
share (`?? 0`) defaults to 0 before rounding. -/
def createExportRows (records : List DataRecord) (group : String)
    (activeKeys : List String) : List LongrunRow :=
  let filtered := records.filter (fun r => r.groupLabel == group)
  let points := buildSeriesPoints filtered SERIES_LABELS
  points.map (fun point =>
    { year := dateYear point.date
      month := dateMonth point.date
      total_litres := roundTo 3 point.total
      cells := (SERIES_LABELS.filter (fun label =>
          activeKeys.contains (keyForLabel label))).map (fun label =>
        (keyForLabel label ++ "_share",
          roundTo 4 ((getEntry point.shares (keyForLabel label)).getD 0))) })

/-! ### Beer-strength view (src/views/seasonality.ts, third module) -/

/-- The five beer-strength category labels (`CATEGORY_LABELS`). -/
def CATEGORY_LABELS : List String :=
  ["Beer containing not more than 1.150% alcohol",
   "Beer containing between 1.151% and 2.500% alc",
   "Beer containing between 2.501% and 4.350% alc",
   "Beer containing between 4.351% and 5.000% alc",
   "Beer containing more than 5.00% alcohol"]

def beerGroupLabel : String := "Litres of Beverage"

/-- An aggregated bar (`AggregatedBar`). -/
structure AggregatedBar where
  key : String
  label : String
  total : ℚ
  values : List (String × ℚ)
deriving DecidableEq, Repr

/-- `Math.floor(record.year / 10) * 10`. -/
def decadeOf (year : ℤ) : ℤ := Int.fdiv year 10 * 10

/-- The bucket key of `aggregateRecords`: the decade string `"<d>s"` or the
plain year string. -/
def barGroupKey (byDecade : Bool) (r : DataRecord) : String :=
  if byDecade then toString (decadeOf r.year) ++ "s" else toString r.year

/-- The bucket label: for a decade bucket the source slices the trailing
`"s"` off the key and appends `-<d+9>`, which equals building the label from
the decade number directly. -/
def barLabel (byDecade : Bool) (r : DataRecord) : String :=
  if byDecade then toString (decadeOf r.year) ++ "-" ++ toString (decadeOf r.year + 9)
  else barGroupKey byDecade r

/-- One iteration of the `bars` accumulation in `aggregateRecords`: skip
records outside the category labels, with absent values, or with inactive
categories; otherwise create the bucket if missing and add the value to the
bucket total and the category slot. -/
def upsertBar (byDecade : Bool) (activeKeys : List String)
    (bars : List (String × AggregatedBar)) (r : DataRecord) :
    List (String × AggregatedBar) :=
  match r.value with
  | none => bars
  | some v =>
    if CATEGORY_LABELS.contains r.seriesLabel = false then bars
    else
      let categoryKey := keyForLabel r.seriesLabel
      if activeKeys.contains categoryKey = false then bars
      else
        let groupKey := barGroupKey byDecade r
        let bars' :=
          if (getEntry bars groupKey).isSome then bars
          else setEntry bars groupKey
            { key := groupKey
              label := barLabel byDecade r
              total := 0
              values := CATEGORY_LABELS.map (fun label => (keyForLabel label, 0)) }
        match getEntry bars' groupKey with
        | some bar =>
          setEntry bars' groupKey
            { bar with
              total := bar.total + v
              values := setEntry bar.values categoryKey
                ((getEntry bar.values categoryKey).getD 0 + v) }
        | none => bars'

/-- The `ordered` bars of `aggregateRecords` before the share pass: filter
to the beverage-litres group, accumulate buckets, sort by key string. -/
def aggregateBars (records : List DataRecord) (byDecade : Bool)
    (activeKeys : List String) : List AggregatedBar :=
  let filtered := records.filter (fun r => r.groupLabel == beerGroupLabel)
  let bars := filtered.foldl (upsertBar byDecade activeKeys) []
  -- `localeCompare` on these ASCII keys is lexicographic character order,
  -- i.e. `String.lt`, which is by definition the order on the data lists.
  sortByKey (fun a b => decide (a.key.data < b.key.data)) (bars.map Prod.snd)

/-- The share pass of `aggregateRecords` on one bar: divide every category
slot by `bar.total || 1` (so a zero total divides by 1 and leaves the raw
sums in place) and set the bar total to 1. -/
def normalizeBar (bar : AggregatedBar) : AggregatedBar :=
  let total := if bar.total = 0 then 1 else bar.total
  { bar with values := bar.values.map (fun kv => (kv.1, kv.2 / total)), total := 1 }

/-- `aggregateRecords`: the ordered buckets, normalized to shares when
`share` is on. -/
def aggregateRecords (records : List DataRecord) (byDecade share : Bool)
    (activeKeys : List String) : List AggregatedBar :=
  let ordered := aggregateBars records byDecade activeKeys
  if share then ordered.map normalizeBar else ordered

/-- One export row of the beer-strength view. -/
structure BeerRow where
  period : String
  total : ℚ
  cells : List (String × ℚ)
deriving DecidableEq, Repr

/-- The beer-strength `exportRows` projector: total and active category
slots all rounded to 4 digits in share mode, 3 digits otherwise. -/
def beerExportRows (records : List DataRecord) (byDecade asShare : Bool)
    (activeKeys : List String) : List BeerRow :=
  (aggregateRecords records byDecade asShare activeKeys).map (fun bar =>
    { period := bar.label
      total := roundTo (if asShare then 4 else 3) bar.total
      cells := (CATEGORY_LABELS.filter (fun label =>
          activeKeys.contains (keyForLabel label))).map (fun label =>
        (keyForLabel label,
          roundTo (if asShare then 4 else 3)
            ((getEntry bar.values (keyForLabel label)).getD 0))) })

/-! ### Concrete test fixtures

Small inputs used to instantiate the theorems below and to exhibit
counterexamples; they evaluate through the same definitions as the general
statements. -/

/-- The spec's equality-case crossover series A: values 1, 2, 3 at times
0, 1, 2. -/
def fixSeriesA : SeriesData :=
  { key := "a", label := "A"
    values := [{ date := 0, value := some 1 }, { date := 1, value := some 2 },
               { date := 2, value := some 3 }] }

/-- The spec's equality-case crossover series B: values 3, 2, 1 at times
0, 1, 2. -/
def fixSeriesB : SeriesData :=
  { key := "b", label := "B"
    values := [{ date := 0, value := some 3 }, { date := 1, value := some 2 },
               { date := 2, value := some 1 }] }

/-- The spec's interpolation-case series A: values 1, 3 at times 0, 1. -/
def fixInterpA : SeriesData :=
  { key := "a", label := "A"
    values := [{ date := 0, value := some 1 }, { date := 1, value := some 3 }] }

/-- The spec's interpolation-case series B: values 2, 2 at times 0, 1. -/
def fixInterpB : SeriesData :=
  { key := "b", label := "B"
    values := [{ date := 0, value := some 2 }, { date := 1, value := some 2 }] }

/-- A three-point series with an absent middle value, for instantiating the
smoothing theorems. -/
def fixSmooth : List SeriesPoint :=
  [{ date := 0, value := some 1 }, { date := 1, value := none },
   { date := 2, value := some 3 }]

/-- A record of a seasonality series whose single present value is 0, so
its year bucket has total 0. -/
def fixZeroRec : DataRecord :=
  { period := "2000.03", date := ensureDate 2000 3, year := 2000, month := 3
    value := some 0, units := "", groupKey := "g", groupLabel := "G"
    seriesKey := "s", seriesLabel := "S" }

/-- A beer-strength record of the weakest category with value 5. -/
def fixPosRec : DataRecord :=
  { period := "2000.03", date := ensureDate 2000 3, year := 2000, month := 3
    value := some 5, units := "Litres"
    groupKey := keyForLabel beerGroupLabel, groupLabel := beerGroupLabel
    seriesKey := keyForLabel "Beer containing not more than 1.150% alcohol"
    seriesLabel := "Beer containing not more than 1.150% alcohol" }

/-- A beer-strength record of the second category with value −5, cancelling
`fixPosRec` so the year bucket has total 0 with nonzero members. -/
def fixNegRec : DataRecord :=
  { fixPosRec with
    value := some (-5)
    seriesKey := keyForLabel "Beer containing between 1.151% and 2.500% alc"
    seriesLabel := "Beer containing between 1.151% and 2.500% alc" }

/-- The active keys for the two-category beer fixture. -/
def fixBeerKeys : List String :=
  [keyForLabel "Beer containing not more than 1.150% alcohol",
   keyForLabel "Beer containing between 1.151% and 2.500% alc"]

/-- The single bucket aggregated from `fixPosRec` and `fixNegRec`: the +5
and −5 cancel, so the bucket total is 0 while two members are nonzero. -/
def fixCancelBar : AggregatedBar :=
  { key := "2000", label := "2000", total := 0
    values := CATEGORY_LABELS.map (fun l =>
      (keyForLabel l,
        if l = "Beer containing not more than 1.150% alcohol" then (5 : ℚ)
        else if l = "Beer containing between 1.151% and 2.500% alc" then -5
        else 0)) }

/-- A long-run record of the Total beer series with value 0, so its pivot
point has total 0. -/
def fixLongrunRec : DataRecord :=
  { period := "2000.03", date := ensureDate 2000 3, year := 2000, month := 3
    value := some 0, units := "", groupKey := keyForLabel beerGroupLabel
    groupLabel := beerGroupLabel, seriesKey := keyForLabel "Total beer"
    seriesLabel := "Total beer" }

/-- A spirits record carrying the litres measurement 1. -/
def fixLitresRec : DataRecord :=
  { period := "2000.03", date := ensureDate 2000 3, year := 2000, month := 3
    value := some 1, units := "Litres", groupKey := keyForLabel spiritsGroupLabel
    groupLabel := spiritsGroupLabel, seriesKey := keyForLabel spiritsSeriesLabel
    seriesLabel := spiritsSeriesLabel }

/-- A spirits record of the same period carrying the proof-litres
measurement 3, making the period ratio 1/3. -/
def fixProofRec : DataRecord :=
  { fixLitresRec with units := "ProofL", value := some 3 }

/-- The spirits fixture records. -/
def fixSpiritsRecords : List DataRecord := [fixLitresRec, fixProofRec]

/-- One raw CSV row of the spec's end-to-end scenario, parameterized by
series label, quarter and value. -/
def fixRawRow (series period monthTok v : String) : RawRecord :=
  { Period := some period, Group := some "Litres of Beverage"
    Series_title_1 := some series, Data_value := some v
    UNITS := some "Litres", Month := some monthTok }

/-- The spec's end-to-end scenario rows verbatim: series `"Beer"`, four
quarters of 2020 with values 10, 20, 30, 40. -/
def fixBeerScenarioRows : List RawRecord :=
  [fixRawRow "Beer" "2020.03" "Mar" "10", fixRawRow "Beer" "2020.06" "Jun" "20",
   fixRawRow "Beer" "2020.09" "Sep" "30", fixRawRow "Beer" "2020.12" "Dec" "40"]

/-- The strongest beer-strength category label. -/
def fixCatLabel : String := "Beer containing more than 5.00% alcohol"

/-- The end-to-end scenario rows with the series label replaced by an actual
beer-strength category label. -/
def fixCatScenarioRows : List RawRecord :=
  [fixRawRow fixCatLabel "2020.03" "Mar" "10", fixRawRow fixCatLabel "2020.06" "Jun" "20",
   fixRawRow fixCatLabel "2020.09" "Sep" "30", fixRawRow fixCatLabel "2020.12" "Dec" "40"]

/-! ## Theorems -/

/-- The smoothing step never changes the date of a point. -/
theorem smoothStep_date (values : List SeriesPoint) (w i : ℕ) (p : SeriesPoint) :
    (smoothStep values w i p).date = p.date := by
  simp only [smoothStep]
  split <;> rfl

/-- `setRatio` keeps the measurement slots and derives the ratio by the
guarded rule. -/
theorem setRatio_spec (q : SpiritsPoint) :
    (setRatio q).litres = q.litres ∧ (setRatio q).proof = q.proof ∧
    (setRatio q).ratio =
      (match q.litres, q.proof with
        | some l, some pr => if pr ≠ 0 then some (l / pr) else none
        | _, _ => none) := by
  obtain ⟨d, per, lit, prf, rat⟩ := q
  cases lit with
  | none => cases prf <;> simp [setRatio]
  | some l0 =>
    cases prf with
    | none => simp [setRatio]
    | some p0 => by_cases hp : p0 = 0 <;> simp [setRatio, hp]

/-- **C7**: for every period point produced by the spirits unit check, the
litres/proof ratio is absent whenever the litres value is absent, the proof
value is absent, or the proof value is exactly zero, and equals
litres divided by proof otherwise; the division is reached only under the
nonzero guard, so no division-by-zero fault can occur. -/
theorem C7_ratio_guarded (records : List DataRecord) (p : SpiritsPoint)
    (hp : p ∈ preparePoints records) :
    ((p.litres = none ∨ p.proof = none ∨ p.proof = some 0) → p.ratio = none) ∧
    (∀ l pr : ℚ, p.litres = some l → p.proof = some pr → pr ≠ 0 →
      p.ratio = some (l / pr)) := by
  simp only [preparePoints, List.mem_map] at hp
  obtain ⟨q, hq, rfl⟩ := hp
  obtain ⟨hl, hpr, hr⟩ := setRatio_spec q
  constructor
  · rintro (h | h | h)
    · rw [hl] at h
      rw [hr, h]
    · rw [hpr] at h
      rw [hr, h]
      cases q.litres <;> rfl
    · rw [hpr] at h
      rw [hr, h]
      cases q.litres <;> simp
  · intro l pr hl' hpr' hne
    rw [hl] at hl'
    rw [hpr] at hpr'
    rw [hr, hl', hpr']
    simp [hne]

/-- Witness for C7: the fixture with litres 1 and proof litres 3 yields the
ratio 1/3. -/
theorem C7_ratio_guarded_witness :
    SpiritsPoint.ratio
      { date := 24002, period := "2000.03", litres := some 1, proof := some 3
        ratio := some ((1 : ℚ) / 3) } = some ((1 : ℚ) / 3) :=
  (C7_ratio_guarded fixSpiritsRecords
    { date := 24002, period := "2000.03", litres := some 1, proof := some 3
      ratio := some ((1 : ℚ) / 3) }
    (by decide)).2 1 3 rfl rfl (by norm_num)

/-- **C6**: for every series and window size at least 2, the smoothed value
at every index `i` is the arithmetic mean of the present values among the
last `min w (i+1)` points ending at `i` (the trailing window), and when that
window has no present value the original point (hence its absent value) is
returned unchanged — for both `smoothValues` (per-capita view) and
`smoothSeries` (spirits check). -/
theorem C6_smoothing_window_mean :
    (∀ (values : List SeriesPoint) (w i : ℕ), 2 ≤ w → i < values.length →
      (smoothWindow values w i = [] →
        (smoothValues values w).get? i = values.get? i) ∧
      (smoothWindow values w i ≠ [] →
        (smoothValues values w).get? i = (values.get? i).map (fun p =>
          { date := p.date
            value := some ((smoothWindow values w i).sum /
              ((smoothWindow values w i).length : ℚ)) }))) ∧
    (∀ (values : List (Option ℚ)) (w i : ℕ), 2 ≤ w → i < values.length →
      (smoothSeriesWindow values w i = [] →
        (smoothSeries values w).get? i = values.get? i) ∧
      (smoothSeriesWindow values w i ≠ [] →
        (smoothSeries values w).get? i =
          some (some ((smoothSeriesWindow values w i).sum /
            ((smoothSeriesWindow values w i).length : ℚ))))) := by
  constructor
  · intro values w i hw hi
    have hw1 : ¬(w ≤ 1) := by omega
    have hv : values.get? i = some (values.get ⟨i, hi⟩) := List.get?_eq_get hi
    constructor <;> intro hwin <;>
      simp only [smoothValues, if_neg hw1, get?_mapWithIndex, Nat.zero_add, hv] <;>
      simp [smoothStep, List.isEmpty_iff, hwin]
  · intro values w i hw hi
    have hw1 : ¬(w ≤ 1) := by omega
    have hv : values.get? i = some (values.get ⟨i, hi⟩) := List.get?_eq_get hi
    constructor <;> intro hwin <;>
      simp only [smoothSeries, if_neg hw1, get?_mapWithIndex, Nat.zero_add, hv] <;>
      simp [smoothSeriesStep, List.isEmpty_iff, hwin]

/-- Witness for C6: smoothing the three-point fixture with window 2 at index
2 averages the single present value 3 of the window. -/
theorem C6_smoothing_window_mean_witness :
    (smoothValues fixSmooth 2).get? 2 = some { date := 2, value := some 3 } := by
  have h := (C6_smoothing_window_mean.1 fixSmooth 2 2 (by decide) (by decide)).2 (by decide)
  rw [h]
  decide

/-- **C10** (frame property): moving-average smoothing returns a series of
the same length in which the point at each index keeps the original date of
the input point at that index (only the value may differ); `smoothSeries`
carries no dates and preserves the length. -/
theorem C10_smoothing_frame :
    (∀ (values : List SeriesPoint) (w : ℕ),
      (smoothValues values w).length = values.length ∧
      ∀ i : ℕ, ((smoothValues values w).get? i).map SeriesPoint.date =
        (values.get? i).map SeriesPoint.date) ∧
    (∀ (values : List (Option ℚ)) (w : ℕ),
      (smoothSeries values w).length = values.length) := by
  refine ⟨fun values w => ⟨?_, fun i => ?_⟩, fun values w => ?_⟩
  · by_cases hw : w ≤ 1
    · simp [smoothValues, hw]
    · simp [smoothValues, hw, length_mapWithIndex]
  · by_cases hw : w ≤ 1
    · simp [smoothValues, hw]
    · simp only [smoothValues, if_neg hw, get?_mapWithIndex, Nat.zero_add]
      cases values.get? i with
      | none => rfl
      | some p => simp [smoothStep_date]
  · by_cases hw : w ≤ 1
    · simp [smoothSeries, hw]
    · simp [smoothSeries, hw, length_mapWithIndex]

/-- An event produced by the step for the consecutive samples at indices
`i` and `i+1` of two aligned value lists appears in the inner-loop result. -/
theorem mem_pairCrossovers_of_get? (labelA labelB : String)
    (la lb : List SeriesPoint) (i : ℕ) (pa ca pb cb : SeriesPoint)
    (ha : la.get? i = some pa) (ha' : la.get? (i + 1) = some ca)
    (hb : lb.get? i = some pb) (hb' : lb.get? (i + 1) = some cb)
    (e : CrossoverPoint) (he : e ∈ crossStep labelA labelB pa ca pb cb) :
    e ∈ pairCrossovers labelA labelB la lb := by
  induction i generalizing la lb with
  | zero =>
    match la, lb with
    | [], _ => simp at ha
    | [_], _ => simp at ha'
    | _ :: _ :: _, [] => simp at hb
    | _ :: _ :: _, [_] => simp at hb'
    | x :: y :: restA, u :: v :: restB =>
      simp only [List.get?_cons_zero, Option.some.injEq] at ha hb
      simp only [List.get?_cons_succ, List.get?_cons_zero, Option.some.injEq] at ha' hb'
      subst ha ha' hb hb'
      simp only [pairCrossovers]
      exact List.mem_append_left _ he
  | succ n ih =>
    match la, lb with
    | [], _ => simp at ha
    | [_], _ => simp at ha'
    | _ :: _ :: _, [] => simp at hb
    | _ :: _ :: _, [_] => simp at hb'
    | x :: y :: restA, u :: v :: restB =>
      simp only [List.get?_cons_succ] at ha ha' hb hb'
      simp only [pairCrossovers]
      exact List.mem_append_right _ (ih (y :: restA) (v :: restB) ha ha' hb hb')

/-- `findCrossovers` on exactly two series is the inner loop over that
pair. -/
theorem findCrossovers_pair (A B : SeriesData) :
    findCrossovers [A, B] = pairCrossovers A.label B.label A.values B.values := by
  simp [findCrossovers, pairsAfter]

/-- **C4**: whenever both series have present values at consecutive indices
`i` and `i+1` and the difference at `i` is zero, the detector records a
crossover exactly at the earlier sample's time with the earlier A value; on
the spec's series [1,2,3] and [3,2,1] at times [0,1,2] it reports exactly
one crossover, at time 1 with value 2. -/
theorem C4_crossover_equality :
    (∀ (A B : SeriesData) (i : ℕ) (pa ca pb cb : SeriesPoint) (va va' vb vb' : ℚ),
      A.values.get? i = some pa → A.values.get? (i + 1) = some ca →
      B.values.get? i = some pb → B.values.get? (i + 1) = some cb →
      pa.value = some va → ca.value = some va' →
      pb.value = some vb → cb.value = some vb' →
      va - vb = 0 →
      ({ date := pa.date, labelA := A.label, labelB := B.label, value := va } :
        CrossoverPoint) ∈ findCrossovers [A, B]) ∧
    findCrossovers [fixSeriesA, fixSeriesB] =
      [{ date := 1, labelA := "A", labelB := "B", value := 2 }] := by
  constructor
  · intro A B i pa ca pb cb va va' vb vb' ha ha' hb hb' hva hva' hvb hvb' hdiff
    rw [findCrossovers_pair]
    refine mem_pairCrossovers_of_get? A.label B.label A.values B.values i
      pa ca pb cb ha ha' hb hb' _ ?_
    simp [crossStep, hva, hva', hvb, hvb', hdiff]
  · decide

/-- Witness for C4: the general equality case applied at index 1 of the
fixture series, where both values are 2. -/
theorem C4_crossover_equality_witness :
    ({ date := 1, labelA := "A", labelB := "B", value := 2 } : CrossoverPoint) ∈
      findCrossovers [fixSeriesA, fixSeriesB] :=
  C4_crossover_equality.1 fixSeriesA fixSeriesB 1
    { date := 1, value := some 2 } { date := 2, value := some 3 }
    { date := 1, value := some 2 } { date := 2, value := some 1 }
    2 3 2 1 (by decide) (by decide) (by decide) (by decide)
    rfl rfl rfl rfl (by decide)

/-- **C5**: whenever both series have present values at consecutive indices
`i` and `i+1` and the differences have opposite signs (negative product),
the detector records the linearly interpolated crossover with weight
|diff(i)| / (|diff(i)| + |diff(i+1)|); on the spec's series [1,3] and [2,2]
at times [0,1] it reports exactly one crossover at time 1/2 with value 2. -/
theorem C5_crossover_interpolation :
    (∀ (A B : SeriesData) (i : ℕ) (pa ca pb cb : SeriesPoint) (va va' vb vb' : ℚ),
      A.values.get? i = some pa → A.values.get? (i + 1) = some ca →
      B.values.get? i = some pb → B.values.get? (i + 1) = some cb →
      pa.value = some va → ca.value = some va' →
      pb.value = some vb → cb.value = some vb' →
      (va - vb) * (va' - vb') < 0 →
      ({ date := pa.date + (ca.date - pa.date) *
            (|va - vb| / (|va - vb| + |va' - vb'|))
         labelA := A.label, labelB := B.label
         value := va + (va' - va) * (|va - vb| / (|va - vb| + |va' - vb'|)) } :
        CrossoverPoint) ∈ findCrossovers [A, B]) ∧
    findCrossovers [fixInterpA, fixInterpB] =
      [{ date := 1 / 2, labelA := "A", labelB := "B", value := 2 }] := by
  constructor
  · intro A B i pa ca pb cb va va' vb vb' ha ha' hb hb' hva hva' hvb hvb' hsign
    have hne : va - vb ≠ 0 := by
      intro h0
      rw [h0, zero_mul] at hsign
      exact lt_irrefl 0 hsign
    rw [findCrossovers_pair]
    refine mem_pairCrossovers_of_get? A.label B.label A.values B.values i
      pa ca pb cb ha ha' hb hb' _ ?_
    simp [crossStep, hva, hva', hvb, hvb', hne, hsign]
  · decide

/-- Witness for C5: the general interpolation case applied at index 0 of
the fixture series, giving the crossover at time 1/2 with value 2. -/
theorem C5_crossover_interpolation_witness :
    ({ date := 1 / 2, labelA := "A", labelB := "B", value := 2 } : CrossoverPoint) ∈
      findCrossovers [fixInterpA, fixInterpB] := by
  have h := C5_crossover_interpolation.1 fixInterpA fixInterpB 0
    { date := 0, value := some 1 } { date := 1, value := some 3 }
    { date := 0, value := some 2 } { date := 1, value := some 2 }
    1 3 2 2 (by decide) (by decide) (by decide) (by decide)
    rfl rfl rfl rfl (by decide)
  have he : ({ date := 0 + (1 - 0) * (|(1 : ℚ) - 2| / (|(1 : ℚ) - 2| + |(3 : ℚ) - 2|))
               labelA := "A", labelB := "B"
               value := 1 + (3 - 1) * (|(1 : ℚ) - 2| / (|(1 : ℚ) - 2| + |(3 : ℚ) - 2|)) } :
      CrossoverPoint) =
      { date := 1 / 2, labelA := "A", labelB := "B", value := 2 } := by
    norm_num
  exact he ▸ h

/-- **C9** (implicit): every interpolated crossover produced by the
detector's step from a consecutive sample pair whose times increase has a
timestamp strictly between the two sample times and a value within the
closed interval spanned by the two A values, because under the
opposite-signs guard the interpolation weight lies strictly between 0
and 1. -/
theorem C9_interpolated_crossover_bounds (labelA labelB : String)
    (prevA currA prevB currB : SeriesPoint) (va va' vb vb' : ℚ)
    (hva : prevA.value = some va) (hva' : currA.value = some va')
    (hvb : prevB.value = some vb) (hvb' : currB.value = some vb')
    (hsign : (va - vb) * (va' - vb') < 0)
    (hT : prevA.date < currA.date)
    (e : CrossoverPoint) (he : e ∈ crossStep labelA labelB prevA currA prevB currB) :
    prevA.date < e.date ∧ e.date < currA.date ∧
    min va va' ≤ e.value ∧ e.value ≤ max va va' := by
  have hne : va - vb ≠ 0 := by
    intro h0
    rw [h0, zero_mul] at hsign
    exact lt_irrefl 0 hsign
  have hne' : va' - vb' ≠ 0 := by
    intro h0
    rw [h0, mul_zero] at hsign
    exact lt_irrefl 0 hsign
  simp only [crossStep, hva, hva', hvb, hvb', if_neg hne, if_pos hsign,
    List.mem_singleton] at he
  subst he
  set r : ℚ := |va - vb| / (|va - vb| + |va' - vb'|) with hr
  have habs : (0 : ℚ) < |va - vb| := abs_pos.mpr hne
  have habs' : (0 : ℚ) < |va' - vb'| := abs_pos.mpr hne'
  have hden : (0 : ℚ) < |va - vb| + |va' - vb'| := by linarith
  have hr0 : 0 < r := div_pos habs hden
  have hr1 : r < 1 := (div_lt_one hden).mpr (by linarith)
  have hdt : (0 : ℚ) < currA.date - prevA.date := by linarith
  refine ⟨?_, ?_, ?_, ?_⟩
  · have : 0 < (currA.date - prevA.date) * r := mul_pos hdt hr0
    simp only []
    linarith
  · have : (currA.date - prevA.date) * r < (currA.date - prevA.date) * 1 :=
      mul_lt_mul_of_pos_left hr1 hdt
    simp only []
    linarith
  · rcases le_total va va' with hle | hle
    · simp only [min_eq_left hle]
      nlinarith
    · simp only [min_eq_right hle]
      nlinarith
  · rcases le_total va va' with hle | hle
    · simp only [max_eq_right hle]
      nlinarith
    · simp only [max_eq_left hle]
      nlinarith

/-- Witness for C9 at the interpolation fixture: the crossover at time 1/2,
value 2, lies strictly between times 0 and 1 and within [1, 3]. -/
theorem C9_interpolated_crossover_bounds_witness :
    (0 : ℚ) < CrossoverPoint.date
        { date := 1 / 2, labelA := "A", labelB := "B", value := 2 } ∧
    CrossoverPoint.date { date := 1 / 2, labelA := "A", labelB := "B", value := 2 } < 1 ∧
    min (1 : ℚ) 3 ≤ 2 ∧ (2 : ℚ) ≤ max (1 : ℚ) 3 := by
  have h := C9_interpolated_crossover_bounds "A" "B"
    { date := 0, value := some 1 } { date := 1, value := some 3 }
    { date := 0, value := some 2 } { date := 1, value := some 2 }
    1 3 2 2 rfl rfl rfl rfl (by norm_num) (by norm_num)
    { date := 1 / 2, labelA := "A", labelB := "B", value := 2 } (by
      simp only [crossStep]
      norm_num)
  exact h

/-- Normalizing a pivot point never changes its total. -/
theorem normalizePointShares_total (q : PointShare) :
    (normalizePointShares q).total = q.total := by
  simp only [normalizePointShares]
  split <;> rfl

/-- **C1 counterexample**: the claim "when the bucket's total is zero, the
share of every member of that bucket equals the explicit number 0, never
absent" fails on the code.  In the seasonality per-year normalization a
single record with value 0 makes the year total 0, and every cell of the
year exports an absent (`none`) share, not 0; in the beer-strength share
aggregation two cancelling records (+5 and −5) make the bucket total 0, and
the first member's share is 5, not 0. -/
theorem C1_zero_total_share_counterexample :
    (prepareCells [fixZeroRec] "G" "S" true).map HeatmapCell.value =
      [none, none, none, none] ∧
    (prepareCells [fixZeroRec] "G" "S" true).map HeatmapCell.value ≠
      [some 0, some 0, some 0, some 0] ∧
    (aggregateRecords [fixPosRec, fixNegRec] false true fixBeerKeys).map
      (fun bar => getEntry bar.values
        (keyForLabel "Beer containing not more than 1.150% alcohol")) =
      [some 5] ∧
    some (5 : ℚ) ≠ some (0 : ℚ) := by
  refine ⟨by decide, by decide, by decide, by decide⟩

/-- **C1 (amended)**: when a bucket's total is zero, the three bucketed
share computations behave as follows.  In the long-run multi-series pivot
every `SERIES_LABELS` share of the point is set to the explicit number 0; in
the seasonality per-year normalization every cell of that year gets an
absent (`none`) share; in the beer-strength share aggregation the divisor is
replaced by 1, so each member's share equals its raw summed value (0 exactly
when that sum is 0) and the bar total becomes 1. -/
theorem C1_zero_total_share_policy :
    (∀ (records : List DataRecord) (point : PointShare),
      point ∈ buildSeriesPoints records SERIES_LABELS → point.total = 0 →
      ∀ label ∈ SERIES_LABELS, getEntry point.shares (keyForLabel label) = some 0) ∧
    (∀ (records : List DataRecord) (g s : String) (cell : HeatmapCell),
      cell ∈ prepareCells records g s true →
      yearTotal ((getEntry (prepareByYear records g s) cell.year).getD []) = 0 →
      cell.value = none) ∧
    (∀ (records : List DataRecord) (byDecade : Bool) (activeKeys : List String)
      (bar : AggregatedBar),
      bar ∈ aggregateBars records byDecade activeKeys → bar.total = 0 →
      normalizeBar bar ∈ aggregateRecords records byDecade true activeKeys ∧
      (normalizeBar bar).total = 1 ∧ (normalizeBar bar).values = bar.values) := by
  refine ⟨?_, ?_, ?_⟩
  · intro records point hpoint htotal
    simp only [buildSeriesPoints, List.mem_map] at hpoint
    obtain ⟨q, hq, rfl⟩ := hpoint
    rw [normalizePointShares_total] at htotal
    intro label hlabel
    have hbw : keyForLabel "Total beer" ≠ keyForLabel "Total wine" := by decide
    have hbs : keyForLabel "Total beer" ≠ keyForLabel "Total spirits" := by decide
    have hws : keyForLabel "Total wine" ≠ keyForLabel "Total spirits" := by decide
    simp only [normalizePointShares, if_pos htotal, SERIES_LABELS,
      List.foldl_cons, List.foldl_nil]
    simp only [SERIES_LABELS, List.mem_cons, List.not_mem_nil, or_false] at hlabel
    rcases hlabel with rfl | rfl | rfl
    · rw [getEntry_setEntry_ne _ _ _ _ hbs, getEntry_setEntry_ne _ _ _ _ hbw,
        getEntry_setEntry_self]
    · rw [getEntry_setEntry_ne _ _ _ _ hws, getEntry_setEntry_self]
    · rw [getEntry_setEntry_self]
  · intro records g s cell hcell htotal
    simp only [prepareCells, List.mem_flatMap, List.mem_map] at hcell
    obtain ⟨year, hyear, month, hmonth, rfl⟩ := hcell
    simp only [if_true] at htotal ⊢
    rw [if_pos htotal]
  · intro records byDecade activeKeys bar hbar h0
    refine ⟨?_, ?_, ?_⟩
    · simp only [aggregateRecords, if_pos]
      exact List.mem_map_of_mem _ hbar
    · simp [normalizeBar, h0]
    · simp [normalizeBar, h0]

/-- Witness for the amended C1 at the three fixtures: the zero-total pivot
point of `fixLongrunRec` has explicit share 0 for Total beer; the zero-total
seasonality cell of `fixZeroRec` is absent; the zero-total cancelling beer
bucket keeps its raw member sums and gets total 1. -/
theorem C1_zero_total_share_policy_witness :
    getEntry
      (PointShare.shares
        { date := 24002, total := 0
          shares := [(keyForLabel "Total beer", 0), (keyForLabel "Total wine", 0),
                     (keyForLabel "Total spirits", 0)] })
      (keyForLabel "Total beer") = some 0 ∧
    HeatmapCell.value { year := 2000, month := 3, value := none } = none ∧
    (normalizeBar fixCancelBar).total = 1 ∧
    (normalizeBar fixCancelBar).values = fixCancelBar.values := by
  refine ⟨?_, ?_, ?_, ?_⟩
  · exact C1_zero_total_share_policy.1 [fixLongrunRec] _ (by decide) (by decide)
      "Total beer" (by decide)
  · exact C1_zero_total_share_policy.2.1 [fixZeroRec] "G" "S"
      { year := 2000, month := 3, value := none } (by decide) (by decide)
  · exact (C1_zero_total_share_policy.2.2 [fixPosRec, fixNegRec] false fixBeerKeys
      fixCancelBar (by decide) (by decide)).2.1
  · exact (C1_zero_total_share_policy.2.2 [fixPosRec, fixNegRec] false fixBeerKeys
      fixCancelBar (by decide) (by decide)).2.2

/-- **C2 counterexample**: the claim that every export projector rounds
share/ratio fields to exactly 4 decimal digits fails on the spirits unit
check, whose `exportRows` rounds the ratio with `toFixed(3)`.  At the
fixture the underlying ratio is 1/3, the exported ratio is 0.333, and the
4-digit rounding of 1/3 is 0.3333 ≠ 0.333. -/
theorem C2_export_rounding_counterexample :
    (preparePoints fixSpiritsRecords).map SpiritsPoint.ratio = [some (1 / 3)] ∧
    (spiritsExportRows (preparePoints fixSpiritsRecords)).map SpiritsRow.ratio =
      [some (333 / 1000)] ∧
    roundTo 4 (1 / 3) ≠ (333 / 1000 : ℚ) := by
  refine ⟨by decide, by decide, by decide⟩

/-- **C2 (amended)**: every view's export projector rounds each numeric
volume/share field to a fixed digit count — raw volumes to 3 digits and
shares to 4 digits — except the spirits unit check, which rounds litres,
proof litres **and the litres/proof ratio** all to 3 digits. -/
theorem C2_export_rounding_policy :
    (∀ (points : List SpiritsPoint) (row : SpiritsRow),
      row ∈ spiritsExportRows points →
      ∃ p ∈ points, row.date = p.date ∧
        row.litres = p.litres.map (roundTo 3) ∧
        row.proof = p.proof.map (roundTo 3) ∧
        row.ratio = p.ratio.map (roundTo 3)) ∧
    (∀ (cells : List HeatmapCell) (normalize : Bool) (row : SeasonalityRow),
      row ∈ seasonalityExportRows cells normalize →
      ∃ c ∈ cells, row.year = c.year ∧ row.month = c.month ∧
        row.value = c.value.map (roundTo (if normalize then 4 else 3))) ∧
    (∀ (records : List DataRecord) (group : String) (activeKeys : List String)
      (row : LongrunRow), row ∈ createExportRows records group activeKeys →
      ∃ point ∈ buildSeriesPoints
          (records.filter (fun r => r.groupLabel == group)) SERIES_LABELS,
        row.total_litres = roundTo 3 point.total ∧
        ∀ kv ∈ row.cells, ∃ label ∈ SERIES_LABELS,
          kv.1 = keyForLabel label ++ "_share" ∧
          kv.2 = roundTo 4 ((getEntry point.shares (keyForLabel label)).getD 0)) ∧
    (∀ (records : List DataRecord) (byDecade asShare : Bool)
      (activeKeys : List String) (row : BeerRow),
      row ∈ beerExportRows records byDecade asShare activeKeys →
      ∃ bar ∈ aggregateRecords records byDecade asShare activeKeys,
        row.total = roundTo (if asShare then 4 else 3) bar.total ∧
        ∀ kv ∈ row.cells, ∃ label ∈ CATEGORY_LABELS,
          kv.1 = keyForLabel label ∧
          kv.2 = roundTo (if asShare then 4 else 3)
            ((getEntry bar.values (keyForLabel label)).getD 0)) ∧
    (∀ (series : List SeriesData) (idx : ℕ) (row : PercapitaRow),
      (percapitaExportRows series).get? idx = some row →
      ∀ kv ∈ row.cells, ∃ s ∈ series,
        kv.1 = s.key ∧
        kv.2 = ((s.values.get? idx).bind SeriesPoint.value).map (roundTo 3)) := by
  refine ⟨?_, ?_, ?_, ?_, ?_⟩
  · intro points row hrow
    simp only [spiritsExportRows, List.mem_map] at hrow
    obtain ⟨p, hp, rfl⟩ := hrow
    exact ⟨p, hp, rfl, rfl, rfl, rfl⟩
  · intro cells normalize row hrow
    simp only [seasonalityExportRows, List.mem_map] at hrow
    obtain ⟨c, hc, rfl⟩ := hrow
    exact ⟨c, hc, rfl, rfl, rfl⟩
  · intro records group activeKeys row hrow
    simp only [createExportRows, List.mem_map] at hrow
    obtain ⟨point, hpoint, rfl⟩ := hrow
    refine ⟨point, hpoint, rfl, ?_⟩
    intro kv hkv
    simp only [List.mem_map] at hkv
    obtain ⟨label, hlab, rfl⟩ := hkv
    exact ⟨label, (List.mem_filter.mp hlab).1, rfl, rfl⟩
  · intro records byDecade asShare activeKeys row hrow
    simp only [beerExportRows, List.mem_map] at hrow
    obtain ⟨bar, hbar, rfl⟩ := hrow
    refine ⟨bar, hbar, rfl, ?_⟩
    intro kv hkv
    simp only [List.mem_map] at hkv
    obtain ⟨label, hlab, rfl⟩ := hkv
    exact ⟨label, (List.mem_filter.mp hlab).1, rfl, rfl⟩
  · intro series idx row hrow
    cases series with
    | nil => simp [percapitaExportRows] at hrow
    | cons first rest =>
      simp only [percapitaExportRows, List.get?_map] at hrow
      have hlen : idx < first.values.length := by
        by_contra hcon
        rw [List.get?_eq_none.mpr (by simpa using Nat.le_of_not_lt hcon)] at hrow
        exact Option.noConfusion hrow
      rw [List.get?_range hlen] at hrow
      simp only [Option.map_some', Option.some.injEq] at hrow
      subst hrow
      intro kv hkv
      simp only [List.mem_map] at hkv
      obtain ⟨s, hs, rfl⟩ := hkv
      exact ⟨s, hs, rfl, rfl⟩

/-- Witness for the amended C2 at a one-cell seasonality fixture: the
normalized cell 1/3 exports as the 4-digit rounding 0.3333. -/
theorem C2_export_rounding_policy_witness :
    ∃ c ∈ [({ year := 2000, month := 3, value := some (1 / 3) } : HeatmapCell)],
      (2000 : ℤ) = c.year ∧ (3 : ℤ) = c.month ∧
      some ((3333 : ℚ) / 10000) = c.value.map (roundTo 4) :=
  C2_export_rounding_policy.2.1 [{ year := 2000, month := 3, value := some (1 / 3) }]
    true { year := 2000, month := 3, value := some (3333 / 10000) } (by decide)

/-- **C3 counterexample**: run end to end on the spec's scenario rows
(`Group="Litres of Beverage"`, `Series_title_1="Beer"`, values 10, 20, 30,
40 over the four quarters of 2020) with Beer as the single active category,
the decade-bucketed share aggregation yields **no** bucket at all — "Beer"
is not one of the five beer-strength `CATEGORY_LABELS`, so every record is
skipped — instead of one bucket with total 100 and share 1. -/
theorem C3_beer_scenario_counterexample :
    aggregateRecords (loadRecords fixBeerScenarioRows) true true
      [keyForLabel "Beer"] = [] ∧
    ([] : List AggregatedBar).length ≠ 1 := by
  refine ⟨by decide, by decide⟩

/-- **C3 (amended)**: with the series label replaced by an actual
beer-strength category label (here "Beer containing more than 5.00%
alcohol") and that category as the single active one, the end-to-end decade
aggregation of the four quarters 10, 20, 30, 40 of 2020 yields exactly one
bucket `"2020s"` whose raw total is 100, and in share mode the category's
share is exactly 1 while the bucket total is set to 1. -/
theorem C3_beer_scenario_amended :
    aggregateBars (loadRecords fixCatScenarioRows) true [keyForLabel fixCatLabel] =
      [{ key := "2020s", label := "2020-2029", total := 100
         values := CATEGORY_LABELS.map (fun l =>
           (keyForLabel l, if l = fixCatLabel then (100 : ℚ) else 0)) }] ∧
    aggregateRecords (loadRecords fixCatScenarioRows) true true
      [keyForLabel fixCatLabel] =
      [{ key := "2020s", label := "2020-2029", total := 1
         values := CATEGORY_LABELS.map (fun l =>
           (keyForLabel l, if l = fixCatLabel then (1 : ℚ) else 0)) }] := by
  refine ⟨by decide, by decide⟩

/-- No two adjacent hyphens: the invariant of collapsed slug text. -/
def NoDashPair (a b : Char) : Prop := ¬(a = '-' ∧ b = '-')

/-- A character of the slug class is not a hyphen. -/
theorem alnum_ne_dash (c : Char) (h : isAlnumCh c = true) : c ≠ '-' := by
  intro hc
  subst hc
  exact absurd h (by decide)

/-- `collapseRuns` starts with `d` when `d` is alphanumeric. -/
theorem head?_collapseRuns_alnum (d : Char) (rest : List Char)
    (h : isAlnumCh d = true) : (collapseRuns (d :: rest)).head? = some d := by
  cases rest <;> simp [collapseRuns, h]

/-- The output of `collapseRuns` never has two adjacent hyphens. -/
theorem chain'_collapseRuns (l : List Char) :
    List.Chain' NoDashPair (collapseRuns l) := by
  induction l with
  | nil => simp [collapseRuns]
  | cons c tail ih =>
    cases tail with
    | nil =>
      by_cases h : isAlnumCh c <;>
        simp [collapseRuns, h, List.chain'_singleton]
    | cons d rest =>
      by_cases hc : isAlnumCh c
      · rw [show collapseRuns (c :: d :: rest) = c :: collapseRuns (d :: rest) from by
          simp [collapseRuns, hc]]
        refine List.chain'_cons'.mpr ⟨?_, ih⟩
        intro y _
        exact fun hand => alnum_ne_dash c hc hand.1
      · by_cases hd : isAlnumCh d
        · rw [show collapseRuns (c :: d :: rest) = '-' :: collapseRuns (d :: rest) from by
            simp [collapseRuns, hc, hd]]
          refine List.chain'_cons'.mpr ⟨?_, ih⟩
          intro y hy
          rw [head?_collapseRuns_alnum d rest hd] at hy
          simp only [Option.mem_def, Option.some.injEq] at hy
          subst hy
          exact fun hand => alnum_ne_dash _ hd hand.2
        · rw [show collapseRuns (c :: d :: rest) = collapseRuns (d :: rest) from by
            simp [collapseRuns, hc, hd]]
          exact ih

/-- Every character of `collapseRuns` output is alphanumeric or a hyphen. -/
theorem mem_collapseRuns (l : List Char) :
    ∀ c ∈ collapseRuns l, isAlnumCh c = true ∨ c = '-' := by
  induction l with
  | nil => simp [collapseRuns]
  | cons c tail ih =>
    cases tail with
    | nil =>
      by_cases h : isAlnumCh c <;> simp [collapseRuns, h]
    | cons d rest =>
      by_cases hc : isAlnumCh c
      · rw [show collapseRuns (c :: d :: rest) = c :: collapseRuns (d :: rest) from by
          simp [collapseRuns, hc]]
        intro x hx
        rcases List.mem_cons.mp hx with rfl | hx
        · exact Or.inl hc
        · exact ih x hx
      · by_cases hd : isAlnumCh d
        · rw [show collapseRuns (c :: d :: rest) = '-' :: collapseRuns (d :: rest) from by
            simp [collapseRuns, hc, hd]]
          intro x hx
          rcases List.mem_cons.mp hx with rfl | hx
          · exact Or.inr rfl
          · exact ih x hx
        · rw [show collapseRuns (c :: d :: rest) = collapseRuns (d :: rest) from by
            simp [collapseRuns, hc, hd]]
          exact ih

/-- `collapseDashes` is the identity on text without adjacent hyphens. -/
theorem collapseDashes_eq_self (l : List Char) (h : List.Chain' NoDashPair l) :
    collapseDashes l = l := by
  induction l with
  | nil => rfl
  | cons c tail ih =>
    cases tail with
    | nil => rfl
    | cons d rest =>
      have hP : NoDashPair c d := (List.chain'_cons.mp h).1
      have htail := (List.chain'_cons.mp h).2
      have hcond : (c == '-' && d == '-') = false := by
        by_cases h1 : c = '-' <;> by_cases h2 : d = '-'
        · exact absurd ⟨h1, h2⟩ hP
        all_goals simp [h1, h2]
      simp only [collapseDashes, hcond, Bool.false_eq_true, if_false]
      rw [ih htail]

/-- Reversal preserves the no-adjacent-hyphens invariant (the relation is
symmetric). -/
theorem chain'_noDashPair_reverse (l : List Char) (h : List.Chain' NoDashPair l) :
    List.Chain' NoDashPair l.reverse :=
  List.chain'_reverse.mpr (h.imp fun _ _ hab hand => hab ⟨hand.2, hand.1⟩)

/-- `stripDashes` preserves the no-adjacent-hyphens invariant. -/
theorem chain'_stripDashes (l : List Char) (h : List.Chain' NoDashPair l) :
    List.Chain' NoDashPair (stripDashes l) := by
  have h1 : List.Chain' NoDashPair (l.dropWhile (fun c => c == '-')) :=
    h.suffix (List.dropWhile_suffix _)
  have h2 := chain'_noDashPair_reverse _ h1
  have h3 : List.Chain' NoDashPair
      ((l.dropWhile (fun c => c == '-')).reverse.dropWhile (fun c => c == '-')) :=
    h2.suffix (List.dropWhile_suffix _)
  exact chain'_noDashPair_reverse _ h3

/-- `stripDashes` only removes characters. -/
theorem mem_of_mem_stripDashes (l : List Char) (c : Char)
    (hc : c ∈ stripDashes l) : c ∈ l := by
  have h1 : stripDashes l <+: l.dropWhile (fun c => c == '-') :=
    List.rdropWhile_prefix _ _
  have h2 : List.Sublist (l.dropWhile (fun c => c == '-')) l :=
    List.dropWhile_sublist _
  exact h2.subset (h1.sublist.subset hc)

/-- `toLowerChar` fixes slug-class characters and hyphens. -/
theorem toLowerChar_eq_self (c : Char) (h : isAlnumCh c = true ∨ c = '-') :
    toLowerChar c = c := by
  rcases h with h | rfl
  · have hl := of_decide_eq_true h
    have hfalse : ¬('A' ≤ c ∧ c ≤ 'Z') := by
      rintro ⟨hA, hZ⟩
      rcases hl with ⟨ha, _⟩ | ⟨h0, h9⟩
      · exact absurd (le_trans ha hZ) (by decide)
      · exact absurd (le_trans hA h9) (by decide)
    simp [toLowerChar, hfalse]
  · decide

/-- `collapseRuns` is the identity on slug-class text with isolated
hyphens. -/
theorem collapseRuns_eq_self (l : List Char)
    (hmem : ∀ c ∈ l, isAlnumCh c = true ∨ c = '-')
    (hch : List.Chain' NoDashPair l) : collapseRuns l = l := by
  induction l with
  | nil => rfl
  | cons c tail ih =>
    cases tail with
    | nil =>
      rcases hmem c (by simp) with h | rfl
      · simp [collapseRuns, h]
      · decide
    | cons d rest =>
      have htail := (List.chain'_cons.mp hch).2
      have hmem' : ∀ x ∈ d :: rest, isAlnumCh x = true ∨ x = '-' :=
        fun x hx => hmem x (List.mem_cons_of_mem c hx)
      rcases hmem c (by simp) with hc | rfl
      · rw [show collapseRuns (c :: d :: rest) = c :: collapseRuns (d :: rest) from by
          simp [collapseRuns, hc]]
        rw [ih hmem' htail]
      · have hPd := (List.chain'_cons.mp hch).1
        have hd : d ≠ '-' := fun hdd => hPd ⟨rfl, hdd⟩
        have hd' : isAlnumCh d = true := by
          rcases hmem' d (by simp) with h | h
          · exact h
          · exact absurd h hd
        have hdash : isAlnumCh '-' = false := by decide
        rw [show collapseRuns ('-' :: d :: rest) = '-' :: collapseRuns (d :: rest) from by
          simp [collapseRuns, hdash, hd']]
        rw [ih hmem' htail]

/-- `stripDashes` is idempotent. -/
theorem stripDashes_idem (l : List Char) :
    stripDashes (stripDashes l) = stripDashes l := by
  set p : Char → Bool := fun c => c == '-' with hp
  set y := l.dropWhile p with hy
  have hz : stripDashes l = y.rdropWhile p := rfl
  have hdz : (y.rdropWhile p).dropWhile p = y.rdropWhile p := by
    rw [List.dropWhile_eq_self_iff]
    intro hl
    have hpre : y.rdropWhile p <+: y := List.rdropWhile_prefix _ _
    have hly : 0 < y.length := lt_of_lt_of_le hl hpre.length_le
    have hget : (y.rdropWhile p).get ⟨0, hl⟩ = y.get ⟨0, hly⟩ := by
      simpa using hpre.getElem hl
    rw [hget]
    exact List.dropWhile_get_zero_not p l hly
  rw [hz, stripDashes, hdz, List.rdropWhile_idempotent]

/-- Mapping a pointwise-fixed function is the identity. -/
theorem map_eq_self_of_fixed (l : List Char) (f : Char → Char)
    (h : ∀ c ∈ l, f c = c) : l.map f = l := by
  induction l with
  | nil => rfl
  | cons c tail ih =>
    rw [List.map_cons, h c (by simp), ih (fun x hx => h x (List.mem_cons_of_mem c hx))]

/-- **C8**: `slugify` computes exactly the spec's slug (lowercase, maximal
non-alphanumeric runs collapsed to one hyphen, leading and trailing hyphens
removed — the fourth pass collapsing repeated hyphens never changes the
result), and `slugify` is idempotent. -/
theorem C8_slug_spec_and_idempotent :
    (∀ L : String, slugify L = slugSpec L) ∧
    (∀ L : String, slugify (slugify L) = slugify L) := by
  have hcore : ∀ L : String,
      slugify L = ⟨stripDashes (collapseRuns (L.data.map toLowerChar))⟩ := by
    intro L
    unfold slugify
    exact congrArg String.mk
      (collapseDashes_eq_self _ (chain'_stripDashes _ (chain'_collapseRuns _)))
  constructor
  · intro L
    rw [hcore L]
    rfl
  · intro L
    rw [hcore L]
    set mid := stripDashes (collapseRuns (L.data.map toLowerChar)) with hmid
    have hch : List.Chain' NoDashPair mid :=
      chain'_stripDashes _ (chain'_collapseRuns _)
    have hmem : ∀ c ∈ mid, isAlnumCh c = true ∨ c = '-' :=
      fun c hc => mem_collapseRuns _ c (mem_of_mem_stripDashes _ c hc)
    have hdata : (String.mk mid).data = mid := rfl
    rw [hcore ⟨mid⟩]
    apply congrArg String.mk
    rw [hdata, map_eq_self_of_fixed mid toLowerChar
      (fun c hc => toLowerChar_eq_self c (hmem c hc))]
    rw [collapseRuns_eq_self mid hmem hch, hmid, stripDashes_idem]

end Booze
